import Mathlib

/-!
Verification of the BCSFE-Python core components: the `Stage`/`Enigma`
binary record codec (`bcsfe/core/game/map/enigma.py`), the bounded
interactive field editors (`bcsfe/cli/dialog_creator.py`), and the
versioned game-data cache and fetcher
(`bcsfe/core/server/game_data_getter.py`).

Pure functions are translated directly; console and file I/O is made
explicit (user input becomes a `String` or a list of strings, the local
cache becomes an association list, the network becomes a function from
URL to optional response bytes). Machine integers are `Nat`/`Int` with
explicit `% 2 ^ w` where the width matters.
-/

set_option maxRecDepth 10000

namespace BCSFE

/-! ### Binary cursor primitives

Modelled from the spec: the `core.Data` binary cursor is an external
collaborator not present in the sources; the spec describes it as a
sequential reader/writer over a byte buffer exposing fixed-width integer,
byte, boolean and double primitives.  A buffer is a list of byte values;
multi-byte integers are laid out in a fixed (little-endian) byte order,
and a double is carried by its 8-byte bit pattern (a `Nat` below `2 ^ 64`),
which is all the round-trip contract observes.  Writing a byte keeps only
the low 8 bits of the value (the spec records that the current writer
silently wraps an overflowing count byte). -/

/-- A byte buffer: each element is one byte value. -/
abbrev Bytes := List Nat

/-- Lay out the low `w` bytes of `v` in little-endian order. -/
def toLE : Nat → Nat → Bytes
  | 0, _ => []
  | w + 1, v => v % 256 :: toLE w (v / 256)

/-- Read `w` little-endian bytes from the front of the buffer; `none` when
the buffer is exhausted. -/
def fromLE : Nat → Bytes → Option (Nat × Bytes)
  | 0, b => some (0, b)
  | _ + 1, [] => none
  | w + 1, x :: b =>
    match fromLE w b with
    | none => none
    | some (v, rest) => some (x + 256 * v, rest)

namespace Data

/-- Modelled from the spec: `core.Data.write_int`, a 32-bit integer write. -/
def write_int (v : Nat) : Bytes := toLE 4 v

/-- Modelled from the spec: `core.Data.read_int`, a 32-bit integer read. -/
def read_int (b : Bytes) : Option (Nat × Bytes) := fromLE 4 b

/-- Modelled from the spec: `core.Data.write_byte`; keeps the low 8 bits
of the value (the writer silently wraps an out-of-range byte). -/
def write_byte (v : Nat) : Bytes := [v % 256]

/-- Modelled from the spec: `core.Data.read_byte`. -/
def read_byte : Bytes → Option (Nat × Bytes)
  | [] => none
  | x :: b => some (x, b)

/-- Modelled from the spec: `core.Data.write_bool`, one byte, 1 for true. -/
def write_bool (v : Bool) : Bytes := [if v then 1 else 0]

/-- Modelled from the spec: `core.Data.read_bool`; any nonzero byte reads
as true. -/
def read_bool (b : Bytes) : Option (Bool × Bytes) :=
  match read_byte b with
  | none => none
  | some (x, rest) => some (x != 0, rest)

/-- Modelled from the spec: `core.Data.write_double`, emitting the 8-byte
bit pattern of the double. -/
def write_double (v : Nat) : Bytes := toLE 8 v

/-- Modelled from the spec: `core.Data.read_double`, reading the 8-byte
bit pattern of a double. -/
def read_double (b : Bytes) : Option (Nat × Bytes) := fromLE 8 b

end Data

/-! ### The `Stage` and `Enigma` records (`enigma.py`) -/

/-- One enigma stage decoding attempt, as in `enigma.py` (`class Stage`);
`start_time` is the bit pattern of the stored double.  The field name
`decoding_satus` keeps the source spelling. -/
structure Stage where
  level : Nat
  stage_id : Nat
  decoding_satus : Nat
  start_time : Nat
deriving DecidableEq, Repr

namespace Stage

/-- `Stage.init`: the zero-valued stage. -/
def init : Stage := ⟨0, 0, 0, 0⟩

/-- `Stage.read`: int, int, byte, double, in source order. -/
def read (b : Bytes) : Option (Stage × Bytes) := do
  let (level, b) ← Data.read_int b
  let (stage_id, b) ← Data.read_int b
  let (decoding_satus, b) ← Data.read_byte b
  let (start_time, b) ← Data.read_double b
  pure (⟨level, stage_id, decoding_satus, start_time⟩, b)

/-- `Stage.write`: int, int, byte, double, in source order. -/
def write (s : Stage) : Bytes :=
  Data.write_int s.level ++ Data.write_int s.stage_id ++
    Data.write_byte s.decoding_satus ++ Data.write_double s.start_time

/-- A stage whose fields are within their binary widths. -/
def InRange (s : Stage) : Prop :=
  s.level < 2 ^ 32 ∧ s.stage_id < 2 ^ 32 ∧ s.decoding_satus < 256 ∧
    s.start_time < 2 ^ 64

instance (s : Stage) : Decidable s.InRange := by
  unfold InRange; infer_instance

end Stage

/-- Read `n` consecutive stages, as the list comprehension
`[Stage.read(data) for _ in range(count)]` in `Enigma.read`. -/
def readStages : Nat → Bytes → Option (List Stage × Bytes)
  | 0, b => some ([], b)
  | n + 1, b => do
    let (s, b) ← Stage.read b
    let (ss, b) ← readStages n b
    pure (s :: ss, b)

/-- The persisted enigma feature state, as in `enigma.py` (`class Enigma`). -/
structure Enigma where
  energy_since_1 : Nat
  energy_since_2 : Nat
  enigma_level : Nat
  unknown_1 : Nat
  unknown_2 : Bool
  stages : List Stage
deriving DecidableEq, Repr

namespace Enigma

/-- `Enigma.init`: the zero-valued enigma record. -/
def init : Enigma := ⟨0, 0, 0, 0, false, []⟩

/-- `Enigma.read`: int, int, byte, byte, bool, then a one-byte stage count
followed by that many stages, in source order. -/
def read (b : Bytes) : Option (Enigma × Bytes) := do
  let (energy_since_1, b) ← Data.read_int b
  let (energy_since_2, b) ← Data.read_int b
  let (enigma_level, b) ← Data.read_byte b
  let (unknown_1, b) ← Data.read_byte b
  let (unknown_2, b) ← Data.read_bool b
  let (count, b) ← Data.read_byte b
  let (stages, b) ← readStages count b
  pure (⟨energy_since_1, energy_since_2, enigma_level, unknown_1,
    unknown_2, stages⟩, b)

/-- `Enigma.write`: the exact inverse order of `read`, with the count byte
re-derived from the current length of `stages`. -/
def write (e : Enigma) : Bytes :=
  Data.write_int e.energy_since_1 ++ Data.write_int e.energy_since_2 ++
    Data.write_byte e.enigma_level ++ Data.write_byte e.unknown_1 ++
    Data.write_bool e.unknown_2 ++ Data.write_byte e.stages.length ++
    (e.stages.map Stage.write).flatten

/-- An enigma whose fields are within their binary widths and whose stage
count fits in the single count byte. -/
def InRange (e : Enigma) : Prop :=
  e.energy_since_1 < 2 ^ 32 ∧ e.energy_since_2 < 2 ^ 32 ∧
    e.enigma_level < 256 ∧ e.unknown_1 < 256 ∧ e.stages.length ≤ 255 ∧
    ∀ s ∈ e.stages, s.InRange

instance (e : Enigma) : Decidable e.InRange := by
  unfold InRange; infer_instance

end Enigma

/-- An enigma record holding 256 stages, one past the single count byte's
capacity. -/
def enigma256 : Enigma := ⟨0, 0, 0, 0, false, List.replicate 256 Stage.init⟩


/-! ### Python string primitives used by the dialog layer (`dialog_creator.py`)

The prompt surface hands the editors a raw line of text; the editors call
the Python builtins `int(...)` and `str.split(" ")` on it.  Both builtins
are modelled here on the character list of the string. -/

/-- Remove leading and trailing whitespace, as the implicit strip inside
the Python `int` constructor. -/
def pyStrip (l : List Char) : List Char :=
  ((l.dropWhile Char.isWhitespace).reverse.dropWhile Char.isWhitespace).reverse

/-- The Python `int(s)` constructor on a decimal literal: surrounding
whitespace and an optional sign are accepted, anything else raises
`ValueError`, returned here as `none`.  (Digit-group underscores are not
modelled; no input in scope uses them.) -/
def parsePyInt (s : String) : Option Int :=
  let t := pyStrip s.toList
  let (neg, ds) :=
    match t with
    | '-' :: rest => (true, rest)
    | '+' :: rest => (false, rest)
    | _ => (false, t)
  if ds = [] then none
  else if ds.all Char.isDigit then
    let n : Nat := ds.foldl (fun acc c => acc * 10 + (c.toNat - 48)) 0
    some (if neg then -(n : Int) else (n : Int))
  else none

/-- Split a character list at every occurrence of the separator, keeping
empty fields. -/
def splitCharsOn (sep : Char) : List Char → List (List Char)
  | [] => [[]]
  | c :: cs =>
    match splitCharsOn sep cs with
    | [] => [[]]
    | g :: gs => if c = sep then [] :: g :: gs else (c :: g) :: gs

/-- The Python `s.split(" ")` call: split at every single separator
occurrence, keeping empty fields. -/
def pySplit (s : String) (sep : Char) : List String :=
  (splitCharsOn sep s.toList).map String.mk

/-! ### `IntInput` (`dialog_creator.py`) -/

/-- The `IntInput` editor: the effective upper bound is resolved once at
construction by `get_max_value`. -/
structure IntInput where
  signed : Bool
  max : Int
  min : Int
  default : Option Int

namespace IntInput

/-- `IntInput.get_max_value`: the signed or unsigned 32-bit limit when
maxes are disabled or no max is given, otherwise the given max capped at
the limit.  The source reads the `DISABLE_MAXES` toggle from the global
config; it is the explicit `disable_maxes` argument here. -/
def get_max_value (disable_maxes : Bool) (max? : Option Int)
    (signed : Bool) : Int :=
  let max_int : Int := if signed then 2 ^ 31 - 1 else 2 ^ 32 - 1
  match max? with
  | none => max_int
  | some m => if disable_maxes then max_int else Min.min m max_int

/-- The `IntInput` constructor (`max=None, min=0, default=None,
signed=True` in the source); stores the resolved effective max. -/
def make (disable_maxes : Bool) (max? : Option Int) (min : Int)
    (default : Option Int) (signed : Bool) : IntInput :=
  ⟨signed, get_max_value disable_maxes max? signed, min, default⟩

/-- `IntInput.clamp_value`: clamp into `[min, max]`. -/
def clamp_value (ii : IntInput) (value : Int) : Int :=
  Max.max (Min.min value ii.max) ii.min

/-- `IntInput.get_input` on one raw prompt line: empty input with a
configured default returns the default untouched; a parsable integer is
clamped and returned; anything else returns no value.  The raw line is
returned alongside, as in the source. -/
def get_input (ii : IntInput) (user_input : String) :
    Option Int × String :=
  if user_input = "" ∧ ii.default.isSome then (ii.default, user_input)
  else
    match parsePyInt user_input with
    | none => (none, user_input)
    | some v => (some (ii.clamp_value v), user_input)

/-- `IntInput.get_input_while` over the successive prompt lines: re-prompt
until a value is produced, aborting with `none` on the reserved quit
input.  The source loops forever on an unbounded stream; an exhausted
list models the session ending with no further input. -/
def get_input_while (ii : IntInput) : List String → Option Int
  | [] => none
  | s :: rest =>
    match ii.get_input s with
    | (some v, _) => some v
    | (none, u) => if u = "q" then none else ii.get_input_while rest

end IntInput

/-! ### `ChoiceInput` (`dialog_creator.py`) -/

namespace ChoiceInput

/-- `ChoiceInput.get_input_locale`: the multi-choice menu read.
`strings` is the rendered label list and `user_input` the raw prompt
line.  With no items there is no prompt and no selection; with one item
it is auto-selected; otherwise the "all at once" entry is appended (when
not single-choice), the line is split on spaces into integer tokens, and
a token equal to the appended entry's 1-based position selects every real
item as one batch. -/
def get_input_locale (strings : List String) (single : Bool)
    (user_input : String) : List Int × Bool :=
  if strings.length = 0 then ([], false)
  else if strings.length = 1 then ([1], false)
  else
    let strings' := if single = false then strings ++ ["all_at_once"]
      else strings
    let int_vals := (pySplit user_input ' ').filterMap parsePyInt
    if (strings'.length : Int) ∈ int_vals ∧ single = false then
      ((List.range (strings'.length - 1)).map (fun j => (j : Int) + 1), true)
    else if single = true ∧ 1 < int_vals.length then
      ([int_vals.headD 0], false)
    else (int_vals, false)

/-- `ChoiceInput.multiple_choice`: shift the 1-based menu indices down to
0-based item indices, forwarding the all-at-once flag. -/
def multiple_choice (strings : List String) (single : Bool)
    (user_input : String) : List Int × Bool :=
  let p := get_input_locale strings single user_input
  (p.1.map (fun i => i - 1), p.2)

end ChoiceInput

/-! ### `MultiEditor.edit_all` (`dialog_creator.py`) -/

namespace MultiEditor

/-- The shared bound computed at the top of `MultiEditor.edit_all`: the
largest of the selected fields' bounds (an absent bound resolving through
`get_max_value`), floor-divided by the number of selected fields when
`cumulative_max` is set. -/
def edit_all_bound (disable_maxes signed cumulative_max : Bool)
    (max_values : List (Option Int)) (choices : List Nat) : Int :=
  let max_max_value := choices.foldl
    (fun acc choice =>
      let mv := match max_values.getD choice none with
        | none => IntInput.get_max_value disable_maxes none signed
        | some m => m
      Max.max acc mv) 0
  if cumulative_max then Int.fdiv max_max_value choices.length
  else max_max_value

/-- `MultiEditor.edit_all`: prompt once with the shared bound (an
`IntInput` with that max, min 0 and no default), then store the value,
further clamped per field to the field's own resolved max, into every
selected field; quitting the prompt leaves every field unchanged. -/
def edit_all (disable_maxes signed cumulative_max : Bool)
    (max_values : List (Option Int)) (ints : List Int)
    (choices : List Nat) (inputs : List String) : List Int :=
  match (IntInput.make disable_maxes
      (some (edit_all_bound disable_maxes signed cumulative_max
        max_values choices)) 0 none true).get_input_while inputs with
  | none => ints
  | some usr_input =>
    choices.foldl
      (fun cur choice =>
        let mv := IntInput.get_max_value disable_maxes
          (max_values.getD choice none) signed
        cur.set choice (Min.min usr_input mv)) ints

end MultiEditor

/-! ### `GameDataGetter` (`game_data_getter.py`)

The getter's effectful surroundings are made explicit: the local file
cache is an association list keyed by the path segments
`game_data/{version}/{pack}/{file}`, the network is a function from URL
to optional response bytes (`none` for any non-200 status or timeout),
and each fetching operation returns the list of URLs it requested
alongside its result, so that "no network call was made" is a provable
statement.  The version list (fetched once at construction by
`get_versions`) is passed explicitly. -/

/-- Raw file bytes from the remote repository. -/
abbrev GData := List Nat

/-- The country code resolved for the save file at construction: the four
regions known to `get_latest_version`, or any other code. -/
inductive CountryCode where
  | en
  | jp
  | kr
  | tw
  | other (code : String)
deriving DecidableEq, Repr

/-- The getter's construction-time state (`GameDataGetter.__init__`): the
repo root URL, the configured locale, the resolved country code, and the
supported sub-locales (`core.CountryCode.get_langs()` in the source,
passed explicitly here). -/
structure GameDataGetter where
  url : String
  lang : String
  cc : CountryCode
  langs : List String

/-- The local file cache, keyed by path segments. -/
abbrev Cache := List (List String × GData)

/-- Read a cache entry (the newest write for a path wins, as a file
overwrite would). -/
def lookupCache (cache : Cache) (path : List String) : Option GData :=
  match cache with
  | [] => none
  | e :: rest => if e.1 = path then some e.2 else lookupCache rest path

namespace GameDataGetter

/-- `GameDataGetter.get_latest_version`: each known region picks a fixed
positional index into the fetched version list, guarded by the list
being long enough; otherwise no version resolves. -/
def get_latest_version (versions : List String) (cc : CountryCode) :
    Option String :=
  if cc = CountryCode.en ∧ 1 ≤ versions.length then versions[0]?
  else if cc = CountryCode.jp ∧ 2 ≤ versions.length then versions[1]?
  else if cc = CountryCode.kr ∧ 3 ≤ versions.length then versions[2]?
  else if cc = CountryCode.tw ∧ 4 ≤ versions.length then versions[3]?
  else none

/-- `GameDataGetter.get_packname`: the shared resource pack name is
rewritten to a locale-suffixed variant only for the EN region and only
when the configured locale is a supported sub-locale; any other name
passes through unchanged. -/
def get_packname (g : GameDataGetter) (packname : String) : String :=
  if packname ≠ "resLocal" then packname
  else if g.cc ≠ CountryCode.en then packname
  else if g.lang ∈ g.langs then packname ++ "_" ++ g.lang
  else packname

/-- `GameDataGetter.get_file`: one network GET at
`{url}{version}/{pack}/{file}`; an unresolved version yields `none` with
no request; a non-success response is `none` from the network function. -/
def get_file (g : GameDataGetter) (versions : List String)
    (net : String → Option GData) (pack_name file_name : String) :
    Option GData × List String :=
  match get_latest_version versions g.cc with
  | none => (none, [])
  | some version =>
    let u := g.url ++ version ++ "/" ++ get_packname g pack_name ++ "/" ++
      file_name
    (net u, [u])

/-- `GameDataGetter.get_file_path`: the cache path
`game_data/{version}/{pack}/{file}` as its segments; absent when no
version resolves. -/
def get_file_path (g : GameDataGetter) (versions : List String)
    (pack_name file_name : String) : Option (List String) :=
  match get_latest_version versions g.cc with
  | none => none
  | some version =>
    some ["game_data", version, get_packname g pack_name, file_name]

/-- `GameDataGetter.save_file`: fetch and, on success, persist the bytes
at the cache path; the request log and the updated cache are returned. -/
def save_file (g : GameDataGetter) (versions : List String)
    (net : String → Option GData) (cache : Cache)
    (pack_name file_name : String) :
    Option GData × List String × Cache :=
  match get_file g versions net (get_packname g pack_name) file_name with
  | (none, reqs) => (none, reqs, cache)
  | (some data, reqs) =>
    match get_file_path g versions (get_packname g pack_name) file_name with
    | none => (none, reqs, cache)
    | some path => (some data, reqs, (path, data) :: cache)

/-- `GameDataGetter.is_downloaded`: whether the cache path exists. -/
def is_downloaded (g : GameDataGetter) (versions : List String)
    (cache : Cache) (pack_name file_name : String) : Bool :=
  match get_file_path g versions (get_packname g pack_name) file_name with
  | none => false
  | some path => (lookupCache cache path).isSome

/-- `GameDataGetter.download`: return the cached bytes when present
(no request); otherwise, with retry budget left and a resolved version,
fetch-and-save, recursing on a failed save with one less retry.  The
source decrements `retries` on entry and tests `retries == 0` after the
decrement; a non-positive initial budget would make the source recurse
without bound, so the budget is a `Nat` here and the claims instantiate
it with the source's default of 2. -/
def download (g : GameDataGetter) (versions : List String)
    (net : String → Option GData) (cache : Cache)
    (pack_name file_name : String) (retries : Nat) :
    Option GData × List String × Cache :=
  if is_downloaded g versions cache (get_packname g pack_name)
      file_name then
    match get_file_path g versions (get_packname g pack_name)
        file_name with
    | none => (none, [], cache)
    | some path => (lookupCache cache path, [], cache)
  else if retries - 1 = 0 then (none, [], cache)
  else
    match get_latest_version versions g.cc with
    | none => (none, [], cache)
    | some _ =>
      match save_file g versions net cache (get_packname g pack_name)
          file_name with
      | (none, reqs, cache2) =>
        match download g versions net cache2 (get_packname g pack_name)
            file_name (retries - 1) with
        | (res, reqs2, cache3) => (res, reqs ++ reqs2, cache3)
      | (some data, reqs, cache2) => (some data, reqs, cache2)
termination_by retries
decreasing_by omega

/-- The loop body of `GameDataGetter.download_all`'s assembly phase: one
requested file's cache re-read (`None` when the path does not resolve or
the entry is still absent). -/
def cache_entry (g : GameDataGetter) (versions : List String)
    (cache : Cache) (pack_name file_name : String) :
    Option (String × GData) :=
  match get_file_path g versions pack_name file_name with
  | none => none
  | some path =>
    match lookupCache cache path with
    | none => none
    | some data => some (file_name, data)

/-- `GameDataGetter.download_all` observed at the barrier: the worker
pool only mutates the cache, so the concurrent phase's entire effect is
the cache state `cache` seen after the join; the result list is then
assembled by re-reading the cache in the caller's original order,
appending one entry per requested file exactly as the source loop does. -/
def download_all (g : GameDataGetter) (versions : List String)
    (cache : Cache) (pack_name : String) (file_names : List String) :
    List (Option (String × GData)) :=
  file_names.foldl
    (fun data_list file_name =>
      data_list ++
        [cache_entry g versions cache (get_packname g pack_name)
          file_name]) []

/-- Modelled from the spec: the fixed positional index the region selects
in the version list (index 0/1/2/3 for the four known regions).  This is
the specification-side characterization that `get_latest_version` is
checked against. -/
def region_version_index : CountryCode → Option Nat
  | CountryCode.en => some 0
  | CountryCode.jp => some 1
  | CountryCode.kr => some 2
  | CountryCode.tw => some 3
  | CountryCode.other _ => none

end GameDataGetter

/-! ### Theorems -/

/-! ### Round-trip lemmas for the primitives -/

theorem fromLE_toLE (w : Nat) (v : Nat) (hv : v < 256 ^ w) (rest : Bytes) :
    fromLE w (toLE w v ++ rest) = some (v, rest) := by
  induction w generalizing v with
  | zero =>
    interval_cases v
    simp [toLE, fromLE]
  | succ w ih =>
    have hdiv : v / 256 < 256 ^ w := by
      rw [Nat.div_lt_iff_lt_mul (by norm_num)]
      calc v < 256 ^ (w + 1) := hv
        _ = 256 ^ w * 256 := by ring
    simp only [toLE, List.cons_append]
    rw [fromLE, ih (v / 256) hdiv]
    show some (v % 256 + 256 * (v / 256), rest) = some (v, rest)
    rw [Nat.mod_add_div]

theorem read_byte_write_byte (v : Nat) (hv : v < 256) (rest : Bytes) :
    Data.read_byte (Data.write_byte v ++ rest) = some (v, rest) := by
  simp [Data.read_byte, Data.write_byte, Nat.mod_eq_of_lt hv]

theorem read_bool_write_bool (v : Bool) (rest : Bytes) :
    Data.read_bool (Data.write_bool v ++ rest) = some (v, rest) := by
  cases v <;> simp [Data.read_bool, Data.read_byte, Data.write_bool]

theorem stage_read_write (s : Stage) (hs : s.InRange) (rest : Bytes) :
    Stage.read (s.write ++ rest) = some (s, rest) := by
  obtain ⟨h1, h2, h3, h4⟩ := hs
  simp only [Stage.read, Stage.write, Data.read_int, Data.write_int,
    Data.write_byte, Data.write_double, Data.read_double, List.append_assoc]
  rw [fromLE_toLE 4 s.level (by norm_num at h1 ⊢; omega)]
  simp only [Option.bind_eq_bind, Option.some_bind]
  rw [fromLE_toLE 4 s.stage_id (by norm_num at h2 ⊢; omega)]
  simp only [Option.some_bind, List.cons_append, List.nil_append,
    Data.read_byte, Nat.mod_eq_of_lt h3]
  rw [fromLE_toLE 8 s.start_time (by norm_num at h4 ⊢; omega)]
  rfl

theorem readStages_write (ss : List Stage) (hss : ∀ s ∈ ss, s.InRange)
    (rest : Bytes) :
    readStages ss.length ((ss.map Stage.write).flatten ++ rest) =
      some (ss, rest) := by
  induction ss with
  | nil => simp [readStages]
  | cons s tail ih =>
    simp only [List.map_cons, List.flatten_cons, List.length_cons,
      readStages, List.append_assoc]
    rw [stage_read_write s (hss s (by simp)) _]
    simp only [Option.bind_eq_bind, Option.some_bind]
    rw [ih (fun t ht => hss t (by simp [ht]))]
    rfl

theorem enigma_read_write (e : Enigma) (he : e.InRange) (rest : Bytes) :
    Enigma.read (e.write ++ rest) = some (e, rest) := by
  obtain ⟨h1, h2, h3, h4, h5, h6⟩ := he
  simp only [Enigma.read, Enigma.write, Data.read_int, Data.write_int,
    List.append_assoc]
  rw [fromLE_toLE 4 e.energy_since_1 (by norm_num at h1 ⊢; omega)]
  simp only [Option.bind_eq_bind, Option.some_bind]
  rw [fromLE_toLE 4 e.energy_since_2 (by norm_num at h2 ⊢; omega)]
  simp only [Option.some_bind, Data.write_byte, List.cons_append,
    List.nil_append, Data.read_byte, Nat.mod_eq_of_lt h3,
    Nat.mod_eq_of_lt h4]
  rw [read_bool_write_bool e.unknown_2]
  simp only [Option.some_bind, Data.read_byte,
    Nat.mod_eq_of_lt (show e.stages.length < 256 by omega)]
  rw [readStages_write e.stages h6]
  rfl

/-- C1: for every in-range `Stage` and `Enigma` record, `read` after
`write` returns the record with an empty remainder, and for every byte
buffer produced by a real `write` of an in-range record, `write` of the
`read` result reproduces the buffer byte-exactly: the codecs are mutually
inverse. -/
theorem stage_enigma_codec_roundtrip (s : Stage) (e : Enigma)
    (hs : s.InRange) (he : e.InRange) :
    Stage.read s.write = some (s, []) ∧
    Enigma.read e.write = some (e, []) ∧
    (Stage.read s.write).map (fun p => p.1.write) = some s.write ∧
    (Enigma.read e.write).map (fun p => p.1.write) = some e.write := by
  have hstage : Stage.read s.write = some (s, []) := by
    have := stage_read_write s hs []
    simpa using this
  have henigma : Enigma.read e.write = some (e, []) := by
    have := enigma_read_write e he []
    simpa using this
  exact ⟨hstage, henigma, by rw [hstage]; rfl, by rw [henigma]; rfl⟩

/-- Witness for `stage_enigma_codec_roundtrip` at a concrete in-range stage
and a concrete in-range one-stage enigma record. -/
theorem stage_enigma_codec_roundtrip_witness :
    Enigma.read (Enigma.mk 5 6 7 8 true [Stage.mk 1 2 3 4]).write =
      some (Enigma.mk 5 6 7 8 true [Stage.mk 1 2 3 4], []) :=
  (stage_enigma_codec_roundtrip (Stage.mk 1 2 3 4)
    (Enigma.mk 5 6 7 8 true [Stage.mk 1 2 3 4])
    (by decide) (by decide)).2.1

/-- C2: the code silently wraps the stage count byte.  Writing an enigma
with 256 stages emits a count byte of `256 % 256 = 0` at offset 11 (the
byte found after dropping the 11-byte header) while still emitting all
256 stage bodies after it, and reading the buffer back yields a record
with 0 stages: the encode is neither rejected nor truncated, and the
round trip is silently lost. -/
theorem enigma_write_256_wraps :
    enigma256.stages.length = 256 ∧
    (Enigma.write enigma256).drop 11 =
      0 :: (enigma256.stages.map Stage.write).flatten ∧
    (Enigma.read (Enigma.write enigma256)).map
      (fun p => p.1.stages.length) = some 0 := by
  have hw : Enigma.write enigma256 =
      0 :: 0 :: 0 :: 0 :: 0 :: 0 :: 0 :: 0 :: 0 :: 0 :: 0 :: 0 ::
        (enigma256.stages.map Stage.write).flatten := by
    simp only [Enigma.write, enigma256]
    rw [List.length_replicate]
    rfl
  have hlen : enigma256.stages.length = 256 := by
    show (List.replicate 256 Stage.init).length = 256
    rw [List.length_replicate]
  refine ⟨hlen, ?_, ?_⟩
  · rw [hw]
    rfl
  · rw [hw]
    rfl


/-! ### Dialog-layer claims -/

theorem IntInput.get_input_parse (ii : IntInput) (hd : ii.default = none)
    (s : String) (v : Int) (hs : parsePyInt s = some v) :
    ii.get_input s = (some (ii.clamp_value v), s) := by
  unfold get_input
  rw [hd, hs, if_neg]
  rintro ⟨-, h⟩
  simp at h

theorem IntInput.get_input_while_cons_some (ii : IntInput) (s : String)
    (rest : List String) (v : Int) (h : ii.get_input s = (some v, s)) :
    ii.get_input_while (s :: rest) = some v := by
  unfold get_input_while
  rw [h]

/-- C4: an `IntInput` built with min 1 and max 10 (maxes not disabled)
clamps every parsable input into [1, 10]: inputs -5, 0, 1, 10, 11, 999
yield 1, 1, 1, 10, 10, 10; the unparsable input "abc" yields no value,
and in `get_input_while` it causes a re-prompt on the remaining input
stream. -/
theorem int_input_clamps :
    ((IntInput.make false (some 10) 1 none true).get_input "-5").1 = some 1 ∧
    ((IntInput.make false (some 10) 1 none true).get_input "0").1 = some 1 ∧
    ((IntInput.make false (some 10) 1 none true).get_input "1").1 = some 1 ∧
    ((IntInput.make false (some 10) 1 none true).get_input "10").1 = some 10 ∧
    ((IntInput.make false (some 10) 1 none true).get_input "11").1 = some 10 ∧
    ((IntInput.make false (some 10) 1 none true).get_input "999").1 = some 10 ∧
    ((IntInput.make false (some 10) 1 none true).get_input "abc").1 = none ∧
    ∀ rest : List String,
      (IntInput.make false (some 10) 1 none true).get_input_while
          ("abc" :: rest) =
        (IntInput.make false (some 10) 1 none true).get_input_while rest := by
  refine ⟨by decide, by decide, by decide, by decide, by decide, by decide,
    by decide, ?_⟩
  intro rest
  rfl

/-- C9: with a configured default, the empty input returns the default
unchanged for any bounds, without the clamp to [min, max] being applied;
in particular a default of 50 outside the bounds [1, 10] is returned
as 50. -/
theorem int_input_default_fallback :
    (∀ (disable_maxes signed : Bool) (max? : Option Int) (mn d : Int),
      ((IntInput.make disable_maxes max? mn (some d) signed).get_input
        "").1 = some d) ∧
    ((IntInput.make false (some 10) 1 (some 50) true).get_input "").1 =
      some 50 := by
  refine ⟨?_, by decide⟩
  intro disable_maxes signed max? mn d
  rfl

/-- C5: the multi-choice contract of `ChoiceInput`: with 0 items the
empty selection is returned whatever the input; with exactly 1 item that
single item (index 0) is returned whatever the input; with n ≥ 2 items,
an input whose integer tokens contain the one-past-the-last sentinel
n + 1 makes `multiple_choice` return every index 0..n-1 with
`all_at_once` true. -/
theorem choice_input_multi_contract :
    (∀ (single : Bool) (inp : String),
      ChoiceInput.multiple_choice [] single inp = ([], false)) ∧
    (∀ (s : String) (single : Bool) (inp : String),
      ChoiceInput.multiple_choice [s] single inp = ([0], false)) ∧
    (∀ (strings : List String) (inp : String),
      2 ≤ strings.length →
      ((strings.length : Int) + 1) ∈
        (pySplit inp ' ').filterMap parsePyInt →
      ChoiceInput.multiple_choice strings false inp =
        ((List.range strings.length).map (fun j => (j : Int)), true)) := by
  refine ⟨fun single inp => rfl, fun s single inp => rfl, ?_⟩
  intro strings inp h2 hmem
  have h0 : ¬ strings.length = 0 := by omega
  have h1 : ¬ strings.length = 1 := by omega
  have hg : ChoiceInput.get_input_locale strings false inp =
      ((List.range strings.length).map (fun j => (j : Int) + 1), true) := by
    unfold ChoiceInput.get_input_locale
    rw [if_neg h0, if_neg h1, if_pos (rfl : (false : Bool) = false)]
    have hm : (((strings ++ ["all_at_once"]).length : Nat) : Int) ∈
        (pySplit inp ' ').filterMap parsePyInt := by
      rw [List.length_append]
      push_cast
      simpa using hmem
    rw [if_pos ⟨hm, rfl⟩]
    simp
  unfold ChoiceInput.multiple_choice
  rw [hg]
  simp only [List.map_map]
  exact congrArg (fun l => (l, true))
    (List.map_congr_left fun j hj => by simp)

/-- Witness for `choice_input_multi_contract` with 3 items and the
sentinel input "4". -/
theorem choice_input_multi_contract_witness :
    ChoiceInput.multiple_choice ["a", "b", "c"] false "4" =
      ((List.range 3).map (fun j => (j : Int)), true) :=
  choice_input_multi_contract.2.2 ["a", "b", "c"] "4" (by decide) (by decide)

/-- C3 counterexample: with individual maxes 100 and 50, both fields
selected and `cumulative_max` set, the shared bound `edit_all` computes
is 50 (the MAXIMUM of the bounds divided by 2), not min(100,50)//2 = 25,
and entering 30 leaves both fields at 30, not 25. -/
theorem edit_all_cumulative_counterexample :
    MultiEditor.edit_all_bound false true true [some 100, some 50] [0, 1] =
      50 ∧
    MultiEditor.edit_all_bound false true true [some 100, some 50] [0, 1] ≠
      Int.fdiv (Min.min 100 50) 2 ∧
    MultiEditor.edit_all false true true [some 100, some 50] [0, 0] [0, 1]
      ["30"] = [30, 30] ∧
    MultiEditor.edit_all false true true [some 100, some 50] [0, 0] [0, 1]
      ["30"] ≠ [25, 25] :=
  ⟨by decide, by decide, by decide, by decide⟩

/-- C3 amended: in `edit_all` with `cumulative_max` set (maxes not
disabled), the shared bound is the MAXIMUM of the selected fields'
individual bounds floor-divided by the number of selected fields; the
entered value is clamped into [0, shared bound] and then further clamped
per field to the field's own max.  For two selected fields with bounds
m₁, m₂ in [0, 2^31 - 1] and a parsable entered value v, the bound is
(max m₁ m₂) // 2 and both fields end at min(clamp(v), own max). -/
theorem edit_all_cumulative_amended (m₁ m₂ v i₁ i₂ : Int) (s : String)
    (h₁ : 0 ≤ m₁) (h₁' : m₁ ≤ 2 ^ 31 - 1) (h₂' : m₂ ≤ 2 ^ 31 - 1)
    (hs : parsePyInt s = some v) :
    MultiEditor.edit_all_bound false true true [some m₁, some m₂] [0, 1] =
      Int.fdiv (Max.max m₁ m₂) 2 ∧
    MultiEditor.edit_all false true true [some m₁, some m₂] [i₁, i₂]
        [0, 1] [s] =
      [Min.min (Max.max (Min.min v (Int.fdiv (Max.max m₁ m₂) 2)) 0) m₁,
       Min.min (Max.max (Min.min v (Int.fdiv (Max.max m₁ m₂) 2)) 0) m₂] := by
  have hfold : MultiEditor.edit_all_bound false true true
      [some m₁, some m₂] [0, 1] = Int.fdiv (Max.max m₁ m₂) 2 := by
    rw [show MultiEditor.edit_all_bound false true true
        [some m₁, some m₂] [0, 1] =
      Int.fdiv (Max.max (Max.max 0 m₁) m₂) 2 from rfl, max_eq_right h₁]
  refine ⟨hfold, ?_⟩
  have hmmv : Int.fdiv (Max.max m₁ m₂) 2 ≤ 2 ^ 31 - 1 := by
    rw [Int.fdiv_eq_ediv _ (by omega)]
    have : Max.max m₁ m₂ ≤ 2 ^ 31 - 1 := by
      rw [max_le_iff]; exact ⟨h₁', h₂'⟩
    omega
  unfold MultiEditor.edit_all
  rw [hfold, IntInput.get_input_while_cons_some _ s [] _
    (IntInput.get_input_parse _ rfl s v hs)]
  show [Min.min (Max.max (Min.min v (Min.min (Int.fdiv (Max.max m₁ m₂) 2)
          (2 ^ 31 - 1))) 0) (Min.min m₁ (2 ^ 31 - 1)),
        Min.min (Max.max (Min.min v (Min.min (Int.fdiv (Max.max m₁ m₂) 2)
          (2 ^ 31 - 1))) 0) (Min.min m₂ (2 ^ 31 - 1))] = _
  rw [min_eq_left hmmv, min_eq_left h₁', min_eq_left h₂']

/-- Witness for `edit_all_cumulative_amended` at maxes 100 and 50 and
entered value 30: the shared bound is 50 and both fields end at 30. -/
theorem edit_all_cumulative_amended_witness :
    MultiEditor.edit_all_bound false true true [some 100, some 50] [0, 1] =
      Int.fdiv (Max.max 100 50) 2 ∧
    MultiEditor.edit_all false true true [some 100, some 50] [0, 0]
        [0, 1] ["30"] =
      [Min.min (Max.max (Min.min 30 (Int.fdiv (Max.max 100 50) 2)) 0) 100,
       Min.min (Max.max (Min.min 30 (Int.fdiv (Max.max 100 50) 2)) 0) 50] :=
  edit_all_cumulative_amended 100 50 30 0 0 "30" (by decide) (by decide)
    (by decide) (by decide)

namespace GameDataGetter


theorem get_packname_idem (g : GameDataGetter) (p : String) :
    g.get_packname (g.get_packname p) = g.get_packname p := by
  by_cases hp : p = "resLocal"
  · subst hp
    by_cases hcc : g.cc = CountryCode.en
    · by_cases hl : g.lang ∈ g.langs
      · have h1 : g.get_packname "resLocal" = "resLocal" ++ "_" ++ g.lang := by
          unfold get_packname
          rw [if_neg (by simp), if_neg (by simp [hcc]), if_pos hl]
        have hne : ("resLocal" ++ "_" ++ g.lang) ≠ "resLocal" := by
          intro h
          have hlen := congrArg String.length h
          rw [String.length_append, String.length_append] at hlen
          have h8 : ("resLocal" : String).length = 8 := rfl
          have hu : ("_" : String).length = 1 := rfl
          rw [h8, hu] at hlen
          omega
        have h2 : g.get_packname ("resLocal" ++ "_" ++ g.lang) =
            "resLocal" ++ "_" ++ g.lang := by
          unfold get_packname
          rw [if_pos hne]
        rw [h1, h2]
      · have h1 : g.get_packname "resLocal" = "resLocal" := by
          unfold get_packname
          rw [if_neg (by simp), if_neg (by simp [hcc]), if_neg hl]
        rw [h1, h1]
    · have h1 : g.get_packname "resLocal" = "resLocal" := by
        unfold get_packname
        rw [if_neg (by simp), if_pos hcc]
      rw [h1, h1]
  · have h1 : g.get_packname p = p := by
      unfold get_packname
      rw [if_pos hp]
    rw [h1, h1]

theorem get_file_path_packname (g : GameDataGetter) (versions : List String)
    (pack_name file_name : String) :
    g.get_file_path versions (g.get_packname pack_name) file_name =
      g.get_file_path versions pack_name file_name := by
  unfold get_file_path
  rw [get_packname_idem]

theorem is_downloaded_eq (g : GameDataGetter) (versions : List String)
    (cache : Cache) (pack_name file_name : String) :
    g.is_downloaded versions cache pack_name file_name =
      match g.get_file_path versions pack_name file_name with
      | none => false
      | some path => (lookupCache cache path).isSome := by
  unfold is_downloaded
  rw [get_file_path_packname]

theorem lookupCache_cons_self (p : List String) (d : GData) (c : Cache) :
    lookupCache ((p, d) :: c) p = some d := by
  simp [lookupCache]

theorem download_cached (g : GameDataGetter) (versions : List String)
    (net : String → Option GData) (cache : Cache)
    (pack_name file_name : String) (retries : Nat) (path : List String)
    (hp : g.get_file_path versions pack_name file_name = some path)
    (hc : (lookupCache cache path).isSome = true) :
    g.download versions net cache pack_name file_name retries =
      (lookupCache cache path, [], cache) := by
  unfold download
  rw [is_downloaded_eq, get_file_path_packname, hp]
  simp [hc]

theorem save_file_some (g : GameDataGetter) (versions : List String)
    (net : String → Option GData) (cache : Cache)
    (pack_name file_name : String) (data : GData) (reqs : List String)
    (cache2 : Cache)
    (h : g.save_file versions net cache pack_name file_name =
      (some data, reqs, cache2)) :
    ∃ path, g.get_file_path versions pack_name file_name = some path ∧
      cache2 = (path, data) :: cache := by
  unfold save_file at h
  split at h
  · simp at h
  · split at h
    · simp at h
    · rename_i path hpath
      rw [get_file_path_packname] at hpath
      simp only [Prod.mk.injEq] at h
      obtain ⟨h1, -, h3⟩ := h
      obtain rfl := Option.some.inj h1
      exact ⟨path, hpath, h3.symm⟩

theorem download_some_cached (g : GameDataGetter) (versions : List String)
    (net : String → Option GData) :
    ∀ (retries : Nat) (cache : Cache) (pack_name file_name : String)
      (b : GData) (reqs : List String) (cache' : Cache),
    g.download versions net cache pack_name file_name retries =
      (some b, reqs, cache') →
    ∃ path, g.get_file_path versions pack_name file_name = some path ∧
      lookupCache cache' path = some b := by
  intro retries
  induction retries using Nat.strong_induction_on with
  | _ retries ih =>
  intro cache pack_name file_name b reqs cache' h
  unfold download at h
  split at h
  · rename_i hdl
    split at h
    · simp at h
    · rename_i path hpath
      rw [get_file_path_packname] at hpath
      simp only [Prod.mk.injEq] at h
      obtain ⟨h1, -, h3⟩ := h
      exact ⟨path, hpath, by rw [← h3, h1]⟩
  · split at h
    · simp at h
    · rename_i hr
      split at h
      · simp at h
      · split at h
        · rename_i reqs1 cache2 hsf
          split at h
          rename_i res reqs2 cache3 hrec
          simp only [Prod.mk.injEq] at h
          obtain ⟨h1, -, h3⟩ := h
          subst h1
          obtain ⟨path, hpath, hl⟩ :=
            ih (retries - 1) (by omega) cache2 (g.get_packname pack_name)
              file_name b reqs2 cache3 hrec
          rw [get_file_path_packname] at hpath
          exact ⟨path, hpath, by rw [← h3]; exact hl⟩
        · rename_i data reqs1 cache2 hsf
          simp only [Prod.mk.injEq] at h
          obtain ⟨h1, -, h3⟩ := h
          obtain rfl := Option.some.inj h1
          obtain ⟨path, hpath, hc2⟩ := save_file_some g versions net cache
            (g.get_packname pack_name) file_name data reqs1 cache2 hsf
          rw [get_file_path_packname] at hpath
          refine ⟨path, hpath, ?_⟩
          rw [← h3, hc2, lookupCache_cons_self]

theorem foldl_append_singleton {α β : Type} (f : α → β) (l : List α)
    (init : List β) :
    l.foldl (fun acc x => acc ++ [f x]) init = init ++ l.map f := by
  induction l generalizing init with
  | nil => simp
  | cons x xs ih => simp [ih]

/-- C10: `get_packname` is idempotent: applying it to an
already-adjusted pack name leaves the name unchanged, and any name other
than the shared resource pack "resLocal" passes through unchanged, so the
re-application of the adjustment inside `download`, `is_downloaded`,
`save_file` and `get_file_path` keeps cache keys and URLs consistent. -/
theorem get_packname_idempotent (g : GameDataGetter) (p : String) :
    g.get_packname (g.get_packname p) = g.get_packname p ∧
    (p ≠ "resLocal" → g.get_packname p = p) := by
  refine ⟨get_packname_idem g p, fun hp => ?_⟩
  unfold get_packname
  rw [if_pos hp]

/-- Witness for `get_packname_idempotent` on a non-"resLocal" name with
an EN-region, supported-locale configuration (the configuration that
rewrites "resLocal" itself). -/
theorem get_packname_idempotent_witness :
    (GameDataGetter.mk "u/" "fr" CountryCode.en ["fr", "de"]).get_packname
        ((GameDataGetter.mk "u/" "fr" CountryCode.en
          ["fr", "de"]).get_packname "DataLocal") =
      (GameDataGetter.mk "u/" "fr" CountryCode.en
        ["fr", "de"]).get_packname "DataLocal" ∧
    (GameDataGetter.mk "u/" "fr" CountryCode.en ["fr", "de"]).get_packname
        "DataLocal" = "DataLocal" :=
  ⟨(get_packname_idempotent (GameDataGetter.mk "u/" "fr" CountryCode.en
      ["fr", "de"]) "DataLocal").1,
   (get_packname_idempotent (GameDataGetter.mk "u/" "fr" CountryCode.en
      ["fr", "de"]) "DataLocal").2 (by decide)⟩

/-- C7: version resolution maps the four known regions to the fixed
positional indices 0, 1, 2, 3 of the version list (absent when the list
is too short or the region unknown), and an absent resolved version makes
`get_file`, `get_file_path` and `download` return absent data with no
network request instead of raising. -/
theorem version_resolution (g : GameDataGetter) (versions : List String)
    (net : String → Option GData) (cache : Cache)
    (pack_name file_name : String) (retries : Nat) :
    GameDataGetter.get_latest_version versions g.cc =
      (region_version_index g.cc).bind (fun i => versions[i]?) ∧
    (GameDataGetter.get_latest_version versions g.cc = none →
      g.get_file versions net pack_name file_name = (none, []) ∧
      g.get_file_path versions pack_name file_name = none ∧
      g.download versions net cache pack_name file_name retries =
        (none, [], cache)) := by
  constructor
  · cases g.cc with
    | en =>
      by_cases h : 1 ≤ versions.length
      · simp [get_latest_version, region_version_index, h]
      · simp [get_latest_version, region_version_index, h,
          List.getElem?_eq_none (show versions.length ≤ 0 by omega)]
    | jp =>
      by_cases h : 2 ≤ versions.length
      · simp [get_latest_version, region_version_index, h]
      · simp [get_latest_version, region_version_index, h,
          List.getElem?_eq_none (show versions.length ≤ 1 by omega)]
    | kr =>
      by_cases h : 3 ≤ versions.length
      · simp [get_latest_version, region_version_index, h]
      · simp [get_latest_version, region_version_index, h,
          List.getElem?_eq_none (show versions.length ≤ 2 by omega)]
    | tw =>
      by_cases h : 4 ≤ versions.length
      · simp [get_latest_version, region_version_index, h]
      · simp [get_latest_version, region_version_index, h,
          List.getElem?_eq_none (show versions.length ≤ 3 by omega)]
    | other c => simp [get_latest_version, region_version_index]
  · intro h
    refine ⟨by simp [get_file, h], by simp [get_file_path, h], ?_⟩
    unfold download
    rw [is_downloaded_eq]
    simp only [get_file_path, h]
    split
    · rfl
    · split
      · rfl
      · rfl

/-- Witness for `version_resolution`: the JP region needs at least two
versions, so with a one-entry version list every fetch degrades to
absent data. -/
theorem version_resolution_witness :
    (GameDataGetter.mk "u/" "fr" CountryCode.jp []).download ["v1"]
        (fun _ => none) [] "p" "f" 2 = (none, [], []) :=
  ((version_resolution (GameDataGetter.mk "u/" "fr" CountryCode.jp [])
    ["v1"] (fun _ => none) [] "p" "f" 2).2 (by decide)).2.2

/-- C8: the result list of `download_all` is index-aligned with the
requested file names: it has the same length, and its i-th element is
exactly the cache re-read for the i-th requested file, whatever cache
state the concurrently dispatched fetch tasks left behind, because the
results are reassembled from the cache in the caller's original order. -/
theorem download_all_order (g : GameDataGetter) (versions : List String)
    (cache : Cache) (pack_name : String) (file_names : List String) :
    (g.download_all versions cache pack_name file_names).length =
      file_names.length ∧
    ∀ i : Nat,
      (g.download_all versions cache pack_name file_names)[i]? =
        file_names[i]?.map
          (cache_entry g versions cache (g.get_packname pack_name)) := by
  have hda : g.download_all versions cache pack_name file_names =
      file_names.map
        (cache_entry g versions cache (g.get_packname pack_name)) := by
    unfold download_all
    rw [foldl_append_singleton]
    simp
  rw [hda]
  exact ⟨List.length_map _ _, fun i => List.getElem?_map _ _ _⟩

/-- C6: when the cache entry for the resolved version exists, `download`
returns the cached bytes with an empty request log (no network call) and
an unchanged cache; and whenever a `download` call returns bytes, a
second call on the resulting cache returns the identical bytes with no
request. -/
theorem download_caching (g : GameDataGetter) (versions : List String)
    (net : String → Option GData) (cache : Cache)
    (pack_name file_name : String) (retries : Nat) (b : GData)
    (reqs : List String) (cache' : Cache) :
    (g.is_downloaded versions cache pack_name file_name = true →
      ∃ path, g.get_file_path versions pack_name file_name = some path ∧
        g.download versions net cache pack_name file_name retries =
          (lookupCache cache path, [], cache)) ∧
    (g.download versions net cache pack_name file_name retries =
        (some b, reqs, cache') →
      g.download versions net cache' pack_name file_name retries =
        (some b, [], cache')) := by
  constructor
  · intro h
    rw [is_downloaded_eq] at h
    cases hp : g.get_file_path versions pack_name file_name with
    | none => rw [hp] at h; simp at h
    | some path =>
      rw [hp] at h
      replace h : (lookupCache cache path).isSome = true := h
      exact ⟨path, rfl,
        download_cached g versions net cache pack_name file_name retries
          path hp h⟩
  · intro h
    obtain ⟨path, hp, hl⟩ := download_some_cached g versions net retries
      cache pack_name file_name b reqs cache' h
    rw [download_cached g versions net cache' pack_name file_name retries
      path hp (by rw [hl]; rfl), hl]

/-- Witness for `download_caching`: a cache already holding the entry for
pack "p", file "f" at version "v1" makes `download` return those bytes
with no request, twice over. -/
theorem download_caching_witness :
    (GameDataGetter.mk "u/" "fr" CountryCode.en []).download ["v1"]
        (fun _ => none) [(["game_data", "v1", "p", "f"], [1, 2, 3])]
        "p" "f" 2 =
      (some [1, 2, 3], [],
        [(["game_data", "v1", "p", "f"], [1, 2, 3])]) := by
  have h1 := (download_caching (GameDataGetter.mk "u/" "fr"
    CountryCode.en []) ["v1"] (fun _ => none)
    [(["game_data", "v1", "p", "f"], [1, 2, 3])] "p" "f" 2 [1, 2, 3] []
    [(["game_data", "v1", "p", "f"], [1, 2, 3])]).1 (by decide)
  obtain ⟨path, hp, hd⟩ := h1
  have h2 : (GameDataGetter.mk "u/" "fr" CountryCode.en
      []).get_file_path ["v1"] "p" "f" =
      some ["game_data", "v1", "p", "f"] := by decide
  rw [h2] at hp
  obtain rfl := Option.some.inj hp
  rw [hd]
  have h3 := (download_caching (GameDataGetter.mk "u/" "fr"
    CountryCode.en []) ["v1"] (fun _ => none)
    [(["game_data", "v1", "p", "f"], [1, 2, 3])] "p" "f" 2 [1, 2, 3] []
    [(["game_data", "v1", "p", "f"], [1, 2, 3])]).2
  exact congrArg (fun o => (o, ([] : List String),
    [((["game_data", "v1", "p", "f"] : List String),
      ([1, 2, 3] : GData))])) (by decide)

end GameDataGetter

end BCSFE

